import Mathlib

/-!
Verification of the hplan fuzzy fill engine (`src/hplan.py`).

The embedding below translates `fill_missing_values` and its helpers into
Lean.  Pandas dataframes become lists of records; the two columns of the
reference table that `fill_missing_values` reads become a list of
key/value pairs; a Python `dict` built by `dict(zip(...))` becomes an
association list with in-place update on duplicate keys (last value wins,
first-occurrence position kept), which is exactly CPython's dict
behaviour.  The similarity scorers from the external `thefuzz` library
(`fuzz.ratio`, `fuzz.partial_ratio`, `fuzz.token_sort_ratio`,
`fuzz.token_set_ratio`, `fuzz.WRatio`) are external code, so they are
modelled as abstract integer-valued functions collected in a `FuzzLib`
record; `process.extractOne` (also library code) is modelled by its
documented behaviour: the arg-max of the scorer over the choices, first
occurrence winning ties, `none` on an empty choice list.
-/

namespace HPlan

/-- A similarity scorer: two strings to an integer score. -/
abbrev ScorerFn := String → String → Int

/-- The five scoring functions imported from the external `thefuzz`
library, abstract here.  Field `pratio` models `fuzz.partial_ratio`,
`wratio` models `fuzz.WRatio`. -/
structure FuzzLib where
  ratio : ScorerFn
  pratio : ScorerFn
  token_sort_ratio : ScorerFn
  token_set_ratio : ScorerFn
  wratio : ScorerFn

/-- A row of the target table `df1`: the (already normalized) value of the
selected match column, the value of the target's own data column if it has
one, and the remaining columns of the row. -/
structure TargetRow where
  key : String
  dataVal : Option String
  other : List (String × String)
deriving DecidableEq

/-- A row of the dataframe returned by `fill_missing_values`
(`src/hplan.py` lines 39-46): the match column plus the four result
columns `Filled Data`, `Match Score`, `Matched Name`, `Algorithm Used`. -/
structure OutRow where
  key : String
  filledData : Option String
  score : Int
  matched : String
  algorithm : String
deriving DecidableEq

/-- `MATCH_ALGORITHMS` (`src/hplan.py` lines 9-15): the registry mapping
the five algorithm names to the library scoring functions. -/
def MATCH_ALGORITHMS (fz : FuzzLib) : List (String × ScorerFn) :=
  [("Ratio", fz.ratio), ("Partial Ratio", fz.pratio),
   ("Token Sort", fz.token_sort_ratio), ("Token Set", fz.token_set_ratio),
   ("WRatio", fz.wratio)]

/-- Lookup in an association list, first match wins (Python `d[k]` /
`k in d` on the association lists we build, whose keys are unique). -/
def lookupD {α : Type} : List (String × α) → String → Option α
  | [], _ => none
  | p :: ps, k => if p.1 = k then some p.2 else lookupD ps k

/-- One Python dict insertion: if the key is present, replace its value in
place; otherwise append the pair at the end. -/
def dictInsert : List (String × String) → String → String → List (String × String)
  | [], a, v => [(a, v)]
  | p :: ps, a, v => if p.1 = a then (a, v) :: ps else p :: dictInsert ps a v

/-- `df2_dict = dict(zip(df2[match_col2], df2[data_col2]))`
(`src/hplan.py` lines 49-52): builds the reference pool from the selected
key and value columns of `df2`. -/
def buildDict (rows : List (String × String)) : List (String × String) :=
  rows.foldl (fun d q => dictInsert d q.1 q.2) []

/-- The value of the last row of the reference table carrying a given key
(the spec's "last-seen value for a key wins"). -/
def lastValue (rows : List (String × String)) (k : String) : Option String :=
  lookupD rows.reverse k

/-- `process.extractOne(query, choices, scorer=scorer)` from `thefuzz`:
best-scoring choice, first occurrence winning ties, `none` when there is
no choice.  (The library's default processor is absorbed into the abstract
scorer.) -/
def extractOne (scorer : ScorerFn) (query : String) : List String → Option (String × Int)
  | [] => none
  | c :: cs =>
      some (cs.foldl
        (fun best k => if scorer query k > best.2 then (k, scorer query k) else best)
        (c, scorer query c))

/-- The maximum score the scorer reaches on a list of candidate keys
(0 by convention on the empty list). -/
def maxScore (scorer : ScorerFn) (query : String) : List String → Int
  | [] => 0
  | c :: cs => cs.foldl (fun m k => max m (scorer query k)) (scorer query c)

/-- `available_matches` (`src/hplan.py` lines 58-59): the reference pool
entries still available, i.e. all of them when duplicate prevention is
off, and those whose key is not yet consumed when it is on. -/
def availableMatches (dict : List (String × String)) (prevent_duplicates : Bool)
    (used : List String) : List (String × String) :=
  dict.filter (fun q => !prevent_duplicates || !(used.contains q.1))

/-- A freshly initialised result row (`src/hplan.py` lines 43-46):
`Filled Data = None`, `Match Score = 0`, `Matched Name = ""`. -/
def initRow (algorithm : String) (k : String) : OutRow :=
  { key := k, filledData := none, score := 0, matched := "", algorithm := algorithm }

/-- `filled_df = df1[[match_col1]].copy()` plus the result columns
(`src/hplan.py` lines 39-46): the loop starts from only the match column
of `df1`; every other column of `df1` is dropped. -/
def initRows (algorithm : String) (df1 : List TargetRow) : List OutRow :=
  df1.map (fun t => initRow algorithm t.key)

/-- The body of the `for index, row in filled_df.iterrows()` loop
(`src/hplan.py` lines 56-77) for one row: guard on `pd.isna(row['Filled
Data'])`, compute the available pool, take the best match, fill if the
score reaches the threshold, and consume the key when duplicate
prevention is on.  Returns the (possibly updated) row and consumed set. -/
def processRow (scorer : ScorerFn) (dict : List (String × String)) (threshold : Int)
    (prevent_duplicates : Bool) (used : List String) (r : OutRow) : OutRow × List String :=
  if r.filledData.isNone then
    if (availableMatches dict prevent_duplicates used).isEmpty then (r, used)
    else
      match extractOne scorer r.key ((availableMatches dict prevent_duplicates used).map Prod.fst) with
      | none => (r, used)
      | some (matchName, matchScore) =>
          if matchScore ≥ threshold then
            ({ r with filledData := lookupD dict matchName,
                      score := matchScore, matched := matchName },
             if prevent_duplicates then used ++ [matchName] else used)
          else (r, used)
  else (r, used)

/-- The whole row loop of `fill_missing_values`, threading the consumed
set through the rows in original order; returns the result rows and the
final consumed set. -/
def fillLoop (scorer : ScorerFn) (dict : List (String × String)) (threshold : Int)
    (prevent_duplicates : Bool) : List OutRow → List String → List OutRow × List String
  | [], used => ([], used)
  | r :: rs, used =>
      let p := processRow scorer dict threshold prevent_duplicates used r
      let q := fillLoop scorer dict threshold prevent_duplicates rs p.2
      (p.1 :: q.1, q.2)

/-- The consumed set just before row `i` is processed (after `i` steps of
the loop from the given start state). -/
def usedAfterN (scorer : ScorerFn) (dict : List (String × String)) (threshold : Int)
    (prevent_duplicates : Bool) : List OutRow → List String → Nat → List String
  | _, used, 0 => used
  | [], used, _ + 1 => used
  | r :: rs, used, n + 1 =>
      usedAfterN scorer dict threshold prevent_duplicates rs
        (processRow scorer dict threshold prevent_duplicates used r).2 n

/-- `fill_missing_values` (`src/hplan.py` lines 37-79).  The scorer lookup
`MATCH_ALGORITHMS[algorithm]` (line 40) raises `KeyError` before the row
loop runs; this is modelled by returning `none`, in which case no row is
processed. -/
def fill_missing_values (fz : FuzzLib) (df1 : List TargetRow)
    (df2 : List (String × String)) (threshold : Int) (algorithm : String)
    (prevent_duplicates : Bool) : Option (List OutRow) :=
  match lookupD (MATCH_ALGORITHMS fz) algorithm with
  | none => none
  | some scorer =>
      some (fillLoop scorer (buildDict df2) threshold prevent_duplicates
        (initRows algorithm df1) []).1

/-- `result_df['Match Score'].gt(0).sum()` (`src/hplan.py` line 164): the
run summary reported to the user. -/
def runSummary (out : List OutRow) : Nat :=
  (out.filter (fun r => r.score > 0)).length

/-- `l'` extends `l` at the end (monotone growth of the consumed set). -/
def growsTo (l l' : List String) : Prop := ∃ extra, l' = l ++ extra

/-- Option alternative, first one wins. -/
def orO {α : Type} (a b : Option α) : Option α :=
  match a with
  | some x => some x
  | none => b

/- ### Concrete scorers used to evaluate the engine on closed inputs -/

/-- A concrete scorer: 100 on equal strings, 0 otherwise. -/
def eqScorer : ScorerFn := fun a b => if a = b then 100 else 0

/-- A concrete scorer library built from `eqScorer`. -/
def fzEq : FuzzLib := ⟨eqScorer, eqScorer, eqScorer, eqScorer, eqScorer⟩

/- ### Hours Assignment Engine (modelled from the spec) -/

/-- `leadsIn n h`: the character list `n` is an initial segment of `h`. -/
def leadsIn : List Char → List Char → Bool
  | [], _ => true
  | _ :: _, [] => false
  | a :: as, b :: bs => a == b && leadsIn as bs

/-- `occursIn n h`: `n` occurs as a contiguous segment of `h`. -/
def occursIn (n : List Char) : List Char → Bool
  | [] => n.isEmpty
  | b :: bs => leadsIn n (b :: bs) || occursIn n bs

/-- Case-insensitive substring test: `needle` occurs in `hay` ignoring
case. -/
def containsCI (hay needle : String) : Bool :=
  occursIn (needle.data.map Char.toLower) (hay.data.map Char.toLower)

/-- A row of the hours table: the categorical type field and the name
field. -/
structure HRow where
  typ : String
  name : String
deriving DecidableEq

/-- A row of the hours table once the hours column is attached. -/
structure HRowH where
  typ : String
  name : String
  hours : Int
deriving DecidableEq

/-- Blank after trimming (the spec's "missing or blank after trimming"):
the string holds no non-whitespace character. -/
def isBlankStr (s : String) : Bool :=
  (s.data.filter (fun c => !c.isWhitespace)).isEmpty

/-- One type-rule application step (spec §4.5 step 3): exact,
case-sensitive match on the type field. -/
def tyStep (acc : List HRowH) (tr : String × Int) : List HRowH :=
  acc.map (fun r => if r.typ = tr.1 then { r with hours := tr.2 } else r)

/-- One keyword-rule application step (spec §4.5 step 4): case-insensitive
substring match on the name field, overwriting the hours value. -/
def kwStep (acc : List HRowH) (kr : String × Int) : List HRowH :=
  acc.map (fun r => if containsCI r.name kr.1 then { r with hours := kr.2 } else r)

/-- Modelled from the spec: the Hours Assignment Engine (`assign`,
spec §4.5) belongs to this repository but its source file is not under
`src/` (only `hplan.py` is there).  Following the spec's words: drop rows
whose type or name field is blank after trimming, initialise hours to 0,
apply the type rules (exact match on the type field), then the keyword
rules in configured order (case-insensitive substring match on the name
field), later assignments overwriting earlier ones. -/
def assignHours (rows : List HRow) (typeRules keywordRules : List (String × Int)) :
    List HRowH :=
  let kept := rows.filter (fun r => !(isBlankStr r.typ) && !(isBlankStr r.name))
  let start := kept.map (fun r => ({ typ := r.typ, name := r.name, hours := 0 } : HRowH))
  keywordRules.foldl kwStep (typeRules.foldl tyStep start)

/- ### Helper lemmas: the reference pool dictionary -/

theorem orO_assoc {α : Type} (a b c : Option α) : orO (orO a b) c = orO a (orO b c) := by
  cases a <;> simp [orO]

theorem orO_none_right {α : Type} (a : Option α) : orO a none = a := by
  cases a <;> simp [orO]

theorem lookupD_dictInsert (d : List (String × String)) (a v : String) (k : String) :
    lookupD (dictInsert d a v) k = if a = k then some v else lookupD d k := by
  induction d with
  | nil => simp [dictInsert, lookupD]
  | cons p ps ih =>
      simp only [dictInsert]
      by_cases hpa : p.1 = a
      · rw [if_pos hpa]
        by_cases hak : a = k
        · simp [lookupD, hak]
        · have hpk : ¬ p.1 = k := by rw [hpa]; exact hak
          simp [lookupD, hak, hpk]
      · rw [if_neg hpa]
        by_cases hpk : p.1 = k
        · have hak : ¬ a = k := by
            intro h
            exact hpa (by rw [h, hpk])
          simp [lookupD, hpk, hak]
        · simp [lookupD, hpk, ih]

theorem lookupD_append {α : Type} (l1 l2 : List (String × α)) (k : String) :
    lookupD (l1 ++ l2) k = orO (lookupD l1 k) (lookupD l2 k) := by
  induction l1 with
  | nil => simp [lookupD, orO]
  | cons p ps ih =>
      by_cases hpk : p.1 = k <;> simp [lookupD, hpk, orO, ih]

theorem buildDict_foldl (rows : List (String × String)) (d : List (String × String))
    (k : String) :
    lookupD (rows.foldl (fun d q => dictInsert d q.1 q.2) d) k =
      orO (lookupD rows.reverse k) (lookupD d k) := by
  induction rows generalizing d with
  | nil => simp [lookupD, orO]
  | cons q rows ih =>
      have hrev : (q :: rows).reverse = rows.reverse ++ [q] := by simp
      rw [List.foldl_cons, ih, hrev, lookupD_append, orO_assoc]
      have : orO (lookupD [q] k) (lookupD d k) = lookupD (dictInsert d q.1 q.2) k := by
        rw [lookupD_dictInsert]
        by_cases hqk : q.1 = k <;> simp [lookupD, hqk, orO]
      rw [this]

/-- C4: when the reference table contains several rows with the same key,
the pool built by `dict(zip(...))` maps that key to the value of the last
such row in table order (last-seen wins); building the pool is a total
function, so duplicate keys never make it fail. -/
theorem buildDict_last_value_wins (rows : List (String × String)) (k : String) :
    lookupD (buildDict rows) k = lastValue rows k := by
  rw [buildDict, buildDict_foldl, lastValue]
  simp [lookupD, orO_none_right]

/- ### Helper lemmas: extractOne computes the arg-max of the scorer -/

theorem extractOne_foldl (scorer : ScorerFn) (q : String) (cs : List String)
    (b : String × Int) :
    (cs.foldl (fun best k => if scorer q k > best.2 then (k, scorer q k) else best) b).2 =
      cs.foldl (fun m k => max m (scorer q k)) b.2 ∧
    ((cs.foldl (fun best k => if scorer q k > best.2 then (k, scorer q k) else best) b).1 = b.1 ∨
     (cs.foldl (fun best k => if scorer q k > best.2 then (k, scorer q k) else best) b).1 ∈ cs) := by
  induction cs generalizing b with
  | nil => simp
  | cons c cs ih =>
      simp only [List.foldl_cons]
      have h2 : (if scorer q c > b.2 then (c, scorer q c) else b).2 = max b.2 (scorer q c) := by
        by_cases h : scorer q c > b.2
        · rw [if_pos h]
          exact (max_eq_right h.le).symm
        · rw [if_neg h]
          exact (max_eq_left (not_lt.mp h)).symm
      refine ⟨by rw [(ih _).1, h2], ?_⟩
      by_cases hc : scorer q c > b.2
      · rw [if_pos hc]
        rcases (ih (c, scorer q c)).2 with h | h
        · right
          rw [h]
          exact List.mem_cons_self _ _
        · right
          exact List.mem_cons_of_mem _ h
      · rw [if_neg hc]
        rcases (ih b).2 with h | h
        · left
          exact h
        · right
          exact List.mem_cons_of_mem _ h

theorem extractOne_spec (scorer : ScorerFn) (q : String) (l : List String) (hl : l ≠ []) :
    ∃ k, k ∈ l ∧ extractOne scorer q l = some (k, maxScore scorer q l) := by
  cases l with
  | nil => exact absurd rfl hl
  | cons c cs =>
      refine ⟨(cs.foldl (fun best k => if scorer q k > best.2 then (k, scorer q k) else best)
        (c, scorer q c)).1, ?_, ?_⟩
      · rcases (extractOne_foldl scorer q cs (c, scorer q c)).2 with h | h
        · rw [h]
          exact List.mem_cons_self _ _
        · exact List.mem_cons_of_mem _ h
      · have h2 := (extractOne_foldl scorer q cs (c, scorer q c)).1
        simp only [extractOne, maxScore, Option.some.injEq]
        rw [← h2]

/- ### Helper lemmas: keys, membership, lookup success -/

theorem lookupD_isSome_of_mem_keys {α : Type} (d : List (String × α)) (k : String)
    (h : k ∈ d.map Prod.fst) : (lookupD d k).isSome = true := by
  induction d with
  | nil => simp at h
  | cons p ps ih =>
      simp only [List.map_cons, List.mem_cons] at h
      by_cases hpk : p.1 = k
      · simp [lookupD, hpk]
      · rcases h with h | h
        · exact absurd h.symm hpk
        · simp [lookupD, hpk, ih h]

theorem mem_keys_of_mem_availableMatches (dict : List (String × String)) (pd : Bool)
    (used : List String) (k : String)
    (h : k ∈ (availableMatches dict pd used).map Prod.fst) : k ∈ dict.map Prod.fst := by
  simp only [availableMatches, List.mem_map] at h ⊢
  rcases h with ⟨p, hp, rfl⟩
  exact ⟨p, (List.mem_filter.mp hp).1, rfl⟩

theorem availableMatches_true_not_used (dict : List (String × String)) (used : List String)
    (k : String) (h : k ∈ (availableMatches dict true used).map Prod.fst) : k ∉ used := by
  simp only [availableMatches, List.mem_map] at h
  rcases h with ⟨p, hp, rfl⟩
  have h2 := (List.mem_filter.mp hp).2
  simp at h2
  exact h2

/- ### Helper lemmas: one loop step -/

theorem processRow_cases (scorer : ScorerFn) (dict : List (String × String)) (threshold : Int)
    (pd : Bool) (used : List String) (r : OutRow) :
    processRow scorer dict threshold pd used r = (r, used) ∨
    (r.filledData = none ∧ ∃ k,
      k ∈ (availableMatches dict pd used).map Prod.fst ∧
      maxScore scorer r.key ((availableMatches dict pd used).map Prod.fst) ≥ threshold ∧
      processRow scorer dict threshold pd used r =
        ({ r with filledData := lookupD dict k,
                  score := maxScore scorer r.key ((availableMatches dict pd used).map Prod.fst),
                  matched := k },
         if pd then used ++ [k] else used)) := by
  unfold processRow
  by_cases hf : r.filledData.isNone
  · rw [if_pos hf]
    by_cases he : (availableMatches dict pd used).isEmpty
    · left
      rw [if_pos he]
    · have hne : (availableMatches dict pd used).map Prod.fst ≠ [] := by
        intro hmap
        rw [List.map_eq_nil_iff] at hmap
        rw [hmap] at he
        simp at he
      rcases extractOne_spec scorer r.key _ hne with ⟨k, hk, hex⟩
      rw [if_neg he]
      simp only [hex]
      by_cases hth : maxScore scorer r.key ((availableMatches dict pd used).map Prod.fst) ≥ threshold
      · right
        exact ⟨Option.isNone_iff_eq_none.mp hf, k, hk, hth, by rw [if_pos hth]⟩
      · left
        rw [if_neg hth]
  · left
    rw [if_neg hf]

theorem processRow_key_alg (scorer : ScorerFn) (dict : List (String × String)) (threshold : Int)
    (pd : Bool) (used : List String) (r : OutRow) :
    (processRow scorer dict threshold pd used r).1.key = r.key ∧
    (processRow scorer dict threshold pd used r).1.algorithm = r.algorithm := by
  rcases processRow_cases scorer dict threshold pd used r with h | ⟨-, k, -, -, h⟩ <;>
    rw [h] <;> exact ⟨rfl, rfl⟩

theorem growsTo_refl (l : List String) : growsTo l l := ⟨[], by simp⟩

theorem growsTo_trans {a b c : List String} (h1 : growsTo a b) (h2 : growsTo b c) :
    growsTo a c := by
  rcases h1 with ⟨e1, rfl⟩
  rcases h2 with ⟨e2, rfl⟩
  exact ⟨e1 ++ e2, by simp⟩

theorem mem_of_growsTo {a b : List String} {x : String} (h : growsTo a b) (hx : x ∈ a) :
    x ∈ b := by
  rcases h with ⟨e, rfl⟩
  exact List.mem_append_left _ hx

theorem processRow_used_growsTo (scorer : ScorerFn) (dict : List (String × String))
    (threshold : Int) (pd : Bool) (used : List String) (r : OutRow) :
    growsTo used (processRow scorer dict threshold pd used r).2 := by
  rcases processRow_cases scorer dict threshold pd used r with h | ⟨-, k, -, -, h⟩
  · rw [h]
    exact growsTo_refl _
  · rw [h]
    by_cases hpd : pd
    · exact ⟨[k], by rw [hpd]; simp⟩
    · simp only [hpd]
      exact ⟨[], by simp⟩

/- ### Helper lemmas: the whole row loop -/

theorem fillLoop_length (s : ScorerFn) (d : List (String × String)) (t : Int) (pd : Bool)
    (rows : List OutRow) (used : List String) :
    (fillLoop s d t pd rows used).1.length = rows.length := by
  induction rows generalizing used with
  | nil => rfl
  | cons r rs ih => simp [fillLoop, ih]

theorem usedAfterN_zero (s : ScorerFn) (d : List (String × String)) (t : Int) (pd : Bool)
    (rows : List OutRow) (used : List String) :
    usedAfterN s d t pd rows used 0 = used := by
  cases rows <;> rfl

theorem fillLoop_getElem? (s : ScorerFn) (d : List (String × String)) (t : Int) (pd : Bool)
    (rows : List OutRow) (used : List String) (i : Nat) :
    (fillLoop s d t pd rows used).1[i]? =
      (rows[i]?).map (fun r => (processRow s d t pd (usedAfterN s d t pd rows used i) r).1) := by
  induction rows generalizing used i with
  | nil => simp [fillLoop]
  | cons r rs ih =>
      cases i with
      | zero => simp [fillLoop, usedAfterN_zero]
      | succ n => simp [fillLoop, usedAfterN, ih]

theorem usedAfterN_succ (s : ScorerFn) (d : List (String × String)) (t : Int) (pd : Bool)
    (rows : List OutRow) (used : List String) (i : Nat) (r₀ : OutRow)
    (h : rows[i]? = some r₀) :
    usedAfterN s d t pd rows used (i+1) =
      (processRow s d t pd (usedAfterN s d t pd rows used i) r₀).2 := by
  induction rows generalizing used i with
  | nil => simp at h
  | cons r rs ih =>
      cases i with
      | zero =>
          simp only [List.getElem?_cons_zero, Option.some.injEq] at h
          subst h
          simp [usedAfterN, usedAfterN_zero]
      | succ n =>
          simp only [List.getElem?_cons_succ] at h
          simp [usedAfterN, ih _ _ h]

theorem usedAfterN_growsTo_succ (s : ScorerFn) (d : List (String × String)) (t : Int)
    (pd : Bool) (rows : List OutRow) (used : List String) (i : Nat) :
    growsTo (usedAfterN s d t pd rows used i) (usedAfterN s d t pd rows used (i+1)) := by
  induction rows generalizing used i with
  | nil => cases i <;> exact growsTo_refl _
  | cons r rs ih =>
      cases i with
      | zero =>
          rw [usedAfterN_zero]
          show growsTo used (usedAfterN s d t pd rs (processRow s d t pd used r).2 0)
          rw [usedAfterN_zero]
          exact processRow_used_growsTo s d t pd used r
      | succ n =>
          exact ih _ _

theorem fillLoop_used_growsTo (s : ScorerFn) (d : List (String × String)) (t : Int)
    (pd : Bool) (rows : List OutRow) (used : List String) :
    growsTo used (fillLoop s d t pd rows used).2 := by
  induction rows generalizing used with
  | nil => exact growsTo_refl _
  | cons r rs ih =>
      simp only [fillLoop]
      exact growsTo_trans (processRow_used_growsTo s d t pd used r) (ih _)

theorem fillLoop_filled_not_mem (s : ScorerFn) (d : List (String × String)) (t : Int)
    (rows : List OutRow) (used : List String)
    (hun : ∀ r ∈ rows, r.filledData = none) (i : Nat) (r : OutRow)
    (hr : (fillLoop s d t true rows used).1[i]? = some r)
    (hf : r.filledData.isSome = true) : r.matched ∉ used := by
  induction rows generalizing used i with
  | nil => simp [fillLoop] at hr
  | cons r₀ rs ih =>
      cases i with
      | zero =>
          simp only [fillLoop, List.getElem?_cons_zero, Option.some.injEq] at hr
          rcases processRow_cases s d t true used r₀ with h | ⟨-, k, hk, -, h⟩
          · rw [h] at hr
            rw [← hr] at hf
            rw [hun r₀ (List.mem_cons_self _ _)] at hf
            simp at hf
          · rw [h] at hr
            rw [← hr]
            exact availableMatches_true_not_used d used k hk
      | succ n =>
          simp only [fillLoop, List.getElem?_cons_succ] at hr
          have hnot := ih (processRow s d t true used r₀).2
            (fun x hx => hun x (List.mem_cons_of_mem _ hx)) n hr
          intro hmem
          exact hnot (mem_of_growsTo (processRow_used_growsTo s d t true used r₀) hmem)

theorem fillLoop_filled_mem_final (s : ScorerFn) (d : List (String × String)) (t : Int)
    (rows : List OutRow) (used : List String)
    (hun : ∀ r ∈ rows, r.filledData = none) (i : Nat) (r : OutRow)
    (hr : (fillLoop s d t true rows used).1[i]? = some r)
    (hf : r.filledData.isSome = true) :
    r.matched ∈ (fillLoop s d t true rows used).2 := by
  induction rows generalizing used i with
  | nil => simp [fillLoop] at hr
  | cons r₀ rs ih =>
      cases i with
      | zero =>
          simp only [fillLoop, List.getElem?_cons_zero, Option.some.injEq] at hr
          rcases processRow_cases s d t true used r₀ with h | ⟨-, k, -, -, h⟩
          · rw [h] at hr
            rw [← hr] at hf
            rw [hun r₀ (List.mem_cons_self _ _)] at hf
            simp at hf
          · subst hr
            have hmem2 : (processRow s d t true used r₀).1.matched ∈
                (processRow s d t true used r₀).2 := by
              rw [h]
              simp
            exact mem_of_growsTo
              (fillLoop_used_growsTo s d t true rs (processRow s d t true used r₀).2) hmem2
      | succ n =>
          simp only [fillLoop, List.getElem?_cons_succ] at hr
          exact ih (processRow s d t true used r₀).2
            (fun x hx => hun x (List.mem_cons_of_mem _ hx)) n hr

theorem fillLoop_matched_ne (s : ScorerFn) (d : List (String × String)) (t : Int)
    (rows : List OutRow) (used : List String)
    (hun : ∀ r ∈ rows, r.filledData = none) (i j : Nat) (ri rj : OutRow)
    (hij : i < j)
    (hi : (fillLoop s d t true rows used).1[i]? = some ri)
    (hj : (fillLoop s d t true rows used).1[j]? = some rj)
    (hfi : ri.filledData.isSome = true) (hfj : rj.filledData.isSome = true) :
    ri.matched ≠ rj.matched := by
  induction rows generalizing used i j with
  | nil => simp [fillLoop] at hi
  | cons r₀ rs ih =>
      cases j with
      | zero => omega
      | succ m =>
          simp only [fillLoop, List.getElem?_cons_succ] at hj
          cases i with
          | zero =>
              simp only [fillLoop, List.getElem?_cons_zero, Option.some.injEq] at hi
              rcases processRow_cases s d t true used r₀ with h | ⟨-, k, -, -, h⟩
              · rw [h] at hi
                rw [← hi] at hfi
                rw [hun r₀ (List.mem_cons_self _ _)] at hfi
                simp at hfi
              · have hjnot := fillLoop_filled_not_mem s d t rs (processRow s d t true used r₀).2
                  (fun x hx => hun x (List.mem_cons_of_mem _ hx)) m rj hj hfj
                intro heq
                apply hjnot
                rw [← heq, ← hi, h]
                simp
          | succ n =>
              simp only [fillLoop, List.getElem?_cons_succ] at hi
              exact ih (processRow s d t true used r₀).2
                (fun x hx => hun x (List.mem_cons_of_mem _ hx)) n m (by omega) hi hj

/- ### Helper lemmas: fill_missing_values and its initial rows -/

theorem fill_eq_fillLoop (fz : FuzzLib) (scorer : ScorerFn) (df1 : List TargetRow)
    (df2 : List (String × String)) (threshold : Int) (alg : String) (pd : Bool)
    (out : List OutRow)
    (hlk : lookupD (MATCH_ALGORITHMS fz) alg = some scorer)
    (hout : fill_missing_values fz df1 df2 threshold alg pd = some out) :
    out = (fillLoop scorer (buildDict df2) threshold pd (initRows alg df1) []).1 := by
  unfold fill_missing_values at hout
  rw [hlk] at hout
  exact (Option.some.inj hout).symm

theorem initRows_unfilled (alg : String) (df1 : List TargetRow) :
    ∀ r ∈ initRows alg df1, r.filledData = none := by
  intro r hr
  simp only [initRows, List.mem_map] at hr
  rcases hr with ⟨t, -, rfl⟩
  rfl

theorem initRows_getElem? (alg : String) (df1 : List TargetRow) (i : Nat) :
    (initRows alg df1)[i]? = (df1[i]?).map (fun t => initRow alg t.key) := by
  simp [initRows]

theorem processRow_empty (scorer : ScorerFn) (dict : List (String × String)) (threshold : Int)
    (pd : Bool) (used : List String) (r : OutRow)
    (hemp : availableMatches dict pd used = []) :
    processRow scorer dict threshold pd used r = (r, used) := by
  unfold processRow
  by_cases hf : r.filledData.isNone
  · rw [if_pos hf, hemp]
    rfl
  · rw [if_neg hf]

theorem processRow_below (scorer : ScorerFn) (dict : List (String × String)) (threshold : Int)
    (pd : Bool) (used : List String) (r : OutRow)
    (hth : maxScore scorer r.key ((availableMatches dict pd used).map Prod.fst) < threshold) :
    processRow scorer dict threshold pd used r = (r, used) := by
  unfold processRow
  by_cases hf : r.filledData.isNone
  · rw [if_pos hf]
    by_cases he : (availableMatches dict pd used).isEmpty
    · rw [if_pos he]
    · have hne : (availableMatches dict pd used).map Prod.fst ≠ [] := by
        intro hmap
        rw [List.map_eq_nil_iff] at hmap
        rw [hmap] at he
        simp at he
      rcases extractOne_spec scorer r.key _ hne with ⟨k, -, hex⟩
      rw [if_neg he]
      simp only [hex]
      rw [if_neg (by omega)]
  · rw [if_neg hf]

theorem processRow_fill (scorer : ScorerFn) (dict : List (String × String)) (threshold : Int)
    (pd : Bool) (used : List String) (r : OutRow)
    (hun : r.filledData = none)
    (hne : (availableMatches dict pd used).map Prod.fst ≠ [])
    (hth : maxScore scorer r.key ((availableMatches dict pd used).map Prod.fst) ≥ threshold) :
    ∃ k, k ∈ (availableMatches dict pd used).map Prod.fst ∧
      processRow scorer dict threshold pd used r =
        ({ r with filledData := lookupD dict k,
                  score := maxScore scorer r.key ((availableMatches dict pd used).map Prod.fst),
                  matched := k },
         if pd then used ++ [k] else used) := by
  unfold processRow
  rw [if_pos (Option.isNone_iff_eq_none.mpr hun)]
  have he : ¬ (availableMatches dict pd used).isEmpty := by
    intro he
    rw [List.isEmpty_iff] at he
    rw [he] at hne
    simp at hne
  rcases extractOne_spec scorer r.key _ hne with ⟨k, hk, hex⟩
  rw [if_neg he]
  simp only [hex]
  rw [if_pos hth]
  exact ⟨k, hk, rfl⟩

/- ### C1 -/

/-- C1: with `prevent_duplicates=true`, the consumed set is empty at the
start of the run and grows monotonically step by step; a filled row's
matched key is not in the consumed set at the row's turn (rows match only
among remaining keys) and is in it right after (the row consumes the key);
and no reference key fills more than one target row: two filled output
rows at distinct positions carry distinct matched keys. -/
theorem fill_prevent_duplicates_invariants (fz : FuzzLib) (scorer : ScorerFn)
    (df1 : List TargetRow) (df2 : List (String × String)) (threshold : Int) (alg : String)
    (out : List OutRow)
    (hlk : lookupD (MATCH_ALGORITHMS fz) alg = some scorer)
    (hout : fill_missing_values fz df1 df2 threshold alg true = some out) :
    usedAfterN scorer (buildDict df2) threshold true (initRows alg df1) [] 0 = [] ∧
    (∀ i, growsTo (usedAfterN scorer (buildDict df2) threshold true (initRows alg df1) [] i)
        (usedAfterN scorer (buildDict df2) threshold true (initRows alg df1) [] (i+1))) ∧
    (∀ i r, out[i]? = some r → r.filledData.isSome = true →
        r.matched ∉ usedAfterN scorer (buildDict df2) threshold true (initRows alg df1) [] i ∧
        r.matched ∈ usedAfterN scorer (buildDict df2) threshold true (initRows alg df1) [] (i+1)) ∧
    (∀ (i j : Nat) (ri rj : OutRow), i < j → out[i]? = some ri → out[j]? = some rj →
        ri.filledData.isSome = true → rj.filledData.isSome = true →
        ri.matched ≠ rj.matched) := by
  have hout' := fill_eq_fillLoop fz scorer df1 df2 threshold alg true out hlk hout
  subst hout'
  refine ⟨usedAfterN_zero _ _ _ _ _ _,
    fun i => usedAfterN_growsTo_succ _ _ _ _ _ _ _, ?_, ?_⟩
  · intro i r hr hf
    rw [fillLoop_getElem?, initRows_getElem?] at hr
    rcases hdf : df1[i]? with _ | t
    · rw [hdf] at hr
      simp at hr
    · rw [hdf] at hr
      simp only [Option.map_some'] at hr
      have hr' := Option.some.inj hr
      have hrow : (initRows alg df1)[i]? = some (initRow alg t.key) := by
        rw [initRows_getElem?, hdf]
        rfl
      rcases processRow_cases scorer (buildDict df2) threshold true
          (usedAfterN scorer (buildDict df2) threshold true (initRows alg df1) [] i)
          (initRow alg t.key) with h | ⟨-, k, hk, -, h⟩
      · rw [h] at hr'
        rw [← hr'] at hf
        simp [initRow] at hf
      · rw [h] at hr'
        refine ⟨?_, ?_⟩
        · rw [← hr']
          exact availableMatches_true_not_used _ _ k hk
        · rw [usedAfterN_succ scorer (buildDict df2) threshold true (initRows alg df1) []
            i _ hrow, h, ← hr']
          simp
  · intro i j ri rj hij hi hj hfi hfj
    exact fillLoop_matched_ne scorer (buildDict df2) threshold (initRows alg df1) []
      (initRows_unfilled alg df1) i j ri rj hij hi hj hfi hfj

/- ### C2 -/

/-- C2: for a target row with a non-empty candidate set, a best available
score exactly equal to the threshold fills the row (with that score), while
a best available score of `threshold - 1` leaves the row exactly as
initialised (nothing filled, score 0, empty matched name). -/
theorem fill_threshold_boundary (fz : FuzzLib) (scorer : ScorerFn) (df1 : List TargetRow)
    (df2 : List (String × String)) (threshold : Int) (alg : String) (pd : Bool)
    (out : List OutRow) (i : Nat) (t : TargetRow) (r : OutRow)
    (hlk : lookupD (MATCH_ALGORITHMS fz) alg = some scorer)
    (hout : fill_missing_values fz df1 df2 threshold alg pd = some out)
    (ht : df1[i]? = some t)
    (hr : out[i]? = some r)
    (hne : (availableMatches (buildDict df2) pd
        (usedAfterN scorer (buildDict df2) threshold pd (initRows alg df1) [] i)).map
        Prod.fst ≠ []) :
    (maxScore scorer t.key ((availableMatches (buildDict df2) pd
        (usedAfterN scorer (buildDict df2) threshold pd (initRows alg df1) [] i)).map
        Prod.fst) = threshold →
      r.filledData.isSome = true ∧ r.score = threshold) ∧
    (maxScore scorer t.key ((availableMatches (buildDict df2) pd
        (usedAfterN scorer (buildDict df2) threshold pd (initRows alg df1) [] i)).map
        Prod.fst) = threshold - 1 →
      r = initRow alg t.key) := by
  have hout' := fill_eq_fillLoop fz scorer df1 df2 threshold alg pd out hlk hout
  have hr2 : (processRow scorer (buildDict df2) threshold pd
      (usedAfterN scorer (buildDict df2) threshold pd (initRows alg df1) [] i)
      (initRow alg t.key)).1 = r := by
    rw [hout', fillLoop_getElem?, initRows_getElem?, ht] at hr
    exact Option.some.inj hr
  constructor
  · intro hm
    rcases processRow_fill scorer (buildDict df2) threshold pd
        (usedAfterN scorer (buildDict df2) threshold pd (initRows alg df1) [] i)
        (initRow alg t.key) rfl hne (ge_of_eq hm) with ⟨k, hk, hfill⟩
    rw [hfill] at hr2
    rw [← hr2]
    exact ⟨lookupD_isSome_of_mem_keys _ _ (mem_keys_of_mem_availableMatches _ _ _ _ hk), hm⟩
  · intro hm
    have hlt : maxScore scorer t.key ((availableMatches (buildDict df2) pd
        (usedAfterN scorer (buildDict df2) threshold pd (initRows alg df1) [] i)).map
        Prod.fst) < threshold := by omega
    rw [processRow_below scorer (buildDict df2) threshold pd _ _ hlt] at hr2
    exact hr2.symm

/- ### C7 -/

/-- C7: the result has exactly one output row per input row in original
order, each carrying the input's match key and the scorer name used; rows
left unfilled still appear, with score 0 and empty matched name; and the
run summary (`result_df['Match Score'].gt(0).sum()`, line 164) is the
number of output rows with score > 0. -/
theorem fill_output_shape (fz : FuzzLib) (scorer : ScorerFn) (df1 : List TargetRow)
    (df2 : List (String × String)) (threshold : Int) (alg : String) (pd : Bool)
    (out : List OutRow)
    (hlk : lookupD (MATCH_ALGORITHMS fz) alg = some scorer)
    (hout : fill_missing_values fz df1 df2 threshold alg pd = some out) :
    out.length = df1.length ∧
    (∀ (i : Nat) (t : TargetRow), df1[i]? = some t →
      ∃ r : OutRow, out[i]? = some r ∧ r.key = t.key ∧ r.algorithm = alg) ∧
    (∀ (i : Nat) (r : OutRow), out[i]? = some r → r.filledData = none →
      r.score = 0 ∧ r.matched = "") ∧
    runSummary out = (out.filter (fun r => r.score > 0)).length := by
  have hout' := fill_eq_fillLoop fz scorer df1 df2 threshold alg pd out hlk hout
  subst hout'
  refine ⟨?_, ?_, ?_, rfl⟩
  · rw [fillLoop_length, initRows, List.length_map]
  · intro i t ht
    refine ⟨(processRow scorer (buildDict df2) threshold pd
      (usedAfterN scorer (buildDict df2) threshold pd (initRows alg df1) [] i)
      (initRow alg t.key)).1, ?_, ?_, ?_⟩
    · rw [fillLoop_getElem?, initRows_getElem?, ht]
      rfl
    · rw [(processRow_key_alg scorer (buildDict df2) threshold pd _ _).1]
      rfl
    · rw [(processRow_key_alg scorer (buildDict df2) threshold pd _ _).2]
      rfl
  · intro i r hr hn
    rw [fillLoop_getElem?, initRows_getElem?] at hr
    rcases hdf : df1[i]? with _ | t
    · rw [hdf] at hr
      simp at hr
    · rw [hdf] at hr
      simp only [Option.map_some'] at hr
      have hr' := Option.some.inj hr
      rcases processRow_cases scorer (buildDict df2) threshold pd
          (usedAfterN scorer (buildDict df2) threshold pd (initRows alg df1) [] i)
          (initRow alg t.key) with h | ⟨-, k, hk, -, h⟩
      · rw [h] at hr'
        rw [← hr']
        exact ⟨rfl, rfl⟩
      · rw [h] at hr'
        rw [← hr'] at hn
        have hsome := lookupD_isSome_of_mem_keys (buildDict df2) k
          (mem_keys_of_mem_availableMatches _ _ _ _ hk)
        rw [show ({ initRow alg t.key with
            filledData := lookupD (buildDict df2) k,
            score := maxScore scorer (initRow alg t.key).key
              ((availableMatches (buildDict df2) pd
                (usedAfterN scorer (buildDict df2) threshold pd (initRows alg df1) [] i)).map
                Prod.fst),
            matched := k } : OutRow).filledData = lookupD (buildDict df2) k from rfl] at hn
        rw [hn] at hsome
        simp at hsome

/- ### C8 -/

/-- C8: an empty available-candidate set at a row's match attempt is not an
error: the row is simply left exactly as initialised (nothing filled,
score 0, empty matched name) and the run still produces one output row per
input row. -/
theorem fill_empty_candidates_no_failure (fz : FuzzLib) (scorer : ScorerFn)
    (df1 : List TargetRow) (df2 : List (String × String)) (threshold : Int) (alg : String)
    (pd : Bool) (out : List OutRow) (i : Nat) (t : TargetRow)
    (hlk : lookupD (MATCH_ALGORITHMS fz) alg = some scorer)
    (hout : fill_missing_values fz df1 df2 threshold alg pd = some out)
    (ht : df1[i]? = some t)
    (hemp : availableMatches (buildDict df2) pd
        (usedAfterN scorer (buildDict df2) threshold pd (initRows alg df1) [] i) = []) :
    out[i]? = some (initRow alg t.key) ∧ out.length = df1.length := by
  have hout' := fill_eq_fillLoop fz scorer df1 df2 threshold alg pd out hlk hout
  subst hout'
  constructor
  · rw [fillLoop_getElem?, initRows_getElem?, ht]
    simp only [Option.map_some']
    rw [processRow_empty scorer (buildDict df2) threshold pd _ _ hemp]
  · rw [fillLoop_length, initRows, List.length_map]

/- ### Helper lemmas for C10 -/

theorem le_foldl_max (f : String → Int) (cs : List String) (b : Int) :
    b ≤ cs.foldl (fun m k => max m (f k)) b := by
  induction cs generalizing b with
  | nil => exact le_refl b
  | cons c cs ih => exact le_trans (le_max_left _ _) (ih (max b (f c)))

theorem maxScore_nonneg (scorer : ScorerFn) (q : String) (l : List String)
    (hl : l ≠ []) (hs : ∀ a b, 0 ≤ scorer a b) : 0 ≤ maxScore scorer q l := by
  cases l with
  | nil => exact absurd rfl hl
  | cons c cs => exact le_trans (hs q c) (le_foldl_max (scorer q) cs (scorer q c))

theorem filter_length_le {α : Type} (l : List α) (p q : α → Bool)
    (hpq : ∀ a ∈ l, p a = true → q a = true) :
    (l.filter p).length ≤ (l.filter q).length := by
  induction l with
  | nil => simp
  | cons b t ih =>
      have iht := ih (fun a ha => hpq a (List.mem_cons_of_mem _ ha))
      by_cases hb : p b = true
      · rw [List.filter_cons_of_pos hb,
          List.filter_cons_of_pos (hpq b (List.mem_cons_self _ _) hb)]
        simpa using iht
      · rw [List.filter_cons_of_neg (by simpa using hb)]
        cases hq : q b
        · rw [List.filter_cons_of_neg (by simp [hq])]
          exact iht
        · rw [List.filter_cons_of_pos hq]
          simp only [List.length_cons]
          omega

theorem filter_length_lt {α : Type} (l : List α) (p q : α → Bool)
    (hpq : ∀ a ∈ l, p a = true → q a = true) (a : α) (ha : a ∈ l)
    (hqa : q a = true) (hpa : p a = false) :
    (l.filter p).length < (l.filter q).length := by
  induction l with
  | nil => simp at ha
  | cons b t ih =>
      have hpq' : ∀ x ∈ t, p x = true → q x = true :=
        fun x hx => hpq x (List.mem_cons_of_mem _ hx)
      rcases List.mem_cons.mp ha with rfl | hat
      · rw [List.filter_cons_of_neg (by simp [hpa]), List.filter_cons_of_pos hqa]
        have hle := filter_length_le t p q hpq'
        simp only [List.length_cons]
        omega
      · have hlt := ih hpq' hat
        by_cases hb : p b = true
        · rw [List.filter_cons_of_pos hb,
            List.filter_cons_of_pos (hpq b (List.mem_cons_self _ _) hb)]
          simpa using hlt
        · rw [List.filter_cons_of_neg (by simpa using hb)]
          cases hq : q b
          · rw [List.filter_cons_of_neg (by simp [hq])]
            exact hlt
          · rw [List.filter_cons_of_pos hq]
            simp only [List.length_cons]
            omega

theorem fill_score_pos_filled (fz : FuzzLib) (scorer : ScorerFn) (df1 : List TargetRow)
    (df2 : List (String × String)) (threshold : Int) (alg : String) (pd : Bool)
    (out : List OutRow)
    (hlk : lookupD (MATCH_ALGORITHMS fz) alg = some scorer)
    (hout : fill_missing_values fz df1 df2 threshold alg pd = some out) :
    ∀ r ∈ out, 0 < r.score → r.filledData.isSome = true := by
  have hout' := fill_eq_fillLoop fz scorer df1 df2 threshold alg pd out hlk hout
  subst hout'
  intro r hrmem hpos
  rcases List.mem_iff_getElem?.mp hrmem with ⟨i, hr⟩
  rw [fillLoop_getElem?, initRows_getElem?] at hr
  rcases hdf : df1[i]? with _ | t
  · rw [hdf] at hr
    simp at hr
  · rw [hdf] at hr
    simp only [Option.map_some'] at hr
    have hr' := Option.some.inj hr
    rcases processRow_cases scorer (buildDict df2) threshold pd
        (usedAfterN scorer (buildDict df2) threshold pd (initRows alg df1) [] i)
        (initRow alg t.key) with h | ⟨-, k, hk, -, h⟩
    · rw [h] at hr'
      rw [← hr'] at hpos
      simp [initRow] at hpos
    · rw [h] at hr'
      rw [← hr']
      exact lookupD_isSome_of_mem_keys _ _ (mem_keys_of_mem_availableMatches _ _ _ _ hk)

/- ### C10 -/

/-- C10: with threshold 0 and a non-empty candidate set, a target row is
filled even when its best similarity score is 0: Filled Data and Matched
Name are set (and, with duplicate prevention on, the matched key is
consumed), while Match Score stays 0 — so score 0 does not imply the row
is unmatched, and the score>0 run summary strictly undercounts the rows
actually filled. -/
theorem fill_zero_threshold_fills_scoreless (fz : FuzzLib) (scorer : ScorerFn)
    (df1 : List TargetRow) (df2 : List (String × String)) (alg : String) (pd : Bool)
    (out : List OutRow) (i : Nat) (t : TargetRow) (r : OutRow)
    (hlk : lookupD (MATCH_ALGORITHMS fz) alg = some scorer)
    (hs : ∀ a b, 0 ≤ scorer a b)
    (hout : fill_missing_values fz df1 df2 0 alg pd = some out)
    (ht : df1[i]? = some t)
    (hr : out[i]? = some r)
    (hne : (availableMatches (buildDict df2) pd
        (usedAfterN scorer (buildDict df2) 0 pd (initRows alg df1) [] i)).map Prod.fst ≠ []) :
    r.filledData.isSome = true ∧
    r.matched ∈ (availableMatches (buildDict df2) pd
        (usedAfterN scorer (buildDict df2) 0 pd (initRows alg df1) [] i)).map Prod.fst ∧
    (pd = true →
      r.matched ∈ usedAfterN scorer (buildDict df2) 0 pd (initRows alg df1) [] (i+1)) ∧
    (maxScore scorer t.key ((availableMatches (buildDict df2) pd
        (usedAfterN scorer (buildDict df2) 0 pd (initRows alg df1) [] i)).map Prod.fst) = 0 →
      r.score = 0 ∧
      runSummary out < (out.filter (fun x => x.filledData.isSome)).length) := by
  have hout' := fill_eq_fillLoop fz scorer df1 df2 0 alg pd out hlk hout
  have hr2 : (processRow scorer (buildDict df2) 0 pd
      (usedAfterN scorer (buildDict df2) 0 pd (initRows alg df1) [] i)
      (initRow alg t.key)).1 = r := by
    rw [hout', fillLoop_getElem?, initRows_getElem?, ht] at hr
    exact Option.some.inj hr
  have hrow : (initRows alg df1)[i]? = some (initRow alg t.key) := by
    rw [initRows_getElem?, ht]
    rfl
  rcases processRow_fill scorer (buildDict df2) 0 pd
      (usedAfterN scorer (buildDict df2) 0 pd (initRows alg df1) [] i)
      (initRow alg t.key) rfl hne (maxScore_nonneg scorer _ _ hne hs) with ⟨k, hk, hfill⟩
  rw [hfill] at hr2
  refine ⟨?_, ?_, ?_, ?_⟩
  · rw [← hr2]
    exact lookupD_isSome_of_mem_keys _ _ (mem_keys_of_mem_availableMatches _ _ _ _ hk)
  · rw [← hr2]
    exact hk
  · intro hpd
    rw [usedAfterN_succ scorer (buildDict df2) 0 pd (initRows alg df1) [] i _ hrow, hfill,
      ← hr2, hpd]
    simp
  · intro hm
    have hscore : r.score = 0 := by
      rw [← hr2]
      exact hm
    refine ⟨hscore, ?_⟩
    have hrmem : r ∈ out := List.mem_iff_getElem?.mpr ⟨i, hr⟩
    have hq : r.filledData.isSome = true := by
      rw [← hr2]
      exact lookupD_isSome_of_mem_keys _ _ (mem_keys_of_mem_availableMatches _ _ _ _ hk)
    have hp : (fun x : OutRow => decide (x.score > 0)) r = false := by
      simp [hscore]
    have hpq : ∀ x ∈ out, (fun x : OutRow => decide (x.score > 0)) x = true →
        (fun x : OutRow => x.filledData.isSome) x = true := by
      intro x hx hxp
      exact fill_score_pos_filled fz scorer df1 df2 0 alg pd out hlk hout x hx
        (of_decide_eq_true hxp)
    exact filter_length_lt out _ _ hpq r hrmem hq hp

/- ### C3 -/

/-- C3 counterexample: a target row whose data field already carries the
non-missing value "existing" is not passed through with score 0 and empty
matched key: `fill_missing_values` builds its output with `Filled Data`
initialised to `None` for every row, so the row is matched and filled from
the reference (score 100, matched key "acme") regardless of the
pre-existing value. -/
theorem fill_prefilled_target_still_filled :
    (TargetRow.mk "acme" (some "existing") []).dataVal.isSome = true ∧
    fill_missing_values fzEq [TargetRow.mk "acme" (some "existing") []]
        [("acme", "refval")] 80 "Ratio" true =
      some [OutRow.mk "acme" (some "refval") 100 "acme" "Ratio"] := by
  exact ⟨rfl, by decide⟩

/-- C3 amended: `fill_missing_values` never skips a row because of a
pre-existing value in the target's own data column — the output frame's
`Filled Data` starts as `None` for every row, so the needs-filling check
passes everywhere and the result is independent of the target's data
column. -/
theorem fill_independent_of_target_data (fz : FuzzLib) (df1 : List TargetRow)
    (df2 : List (String × String)) (threshold : Int) (alg : String) (pd : Bool) :
    fill_missing_values fz df1 df2 threshold alg pd =
      fill_missing_values fz (df1.map (fun t => TargetRow.mk t.key none t.other))
        df2 threshold alg pd := by
  unfold fill_missing_values
  cases lookupD (MATCH_ALGORITHMS fz) alg with
  | none => rfl
  | some scorer =>
      have h : initRows alg (df1.map (fun t => TargetRow.mk t.key none t.other)) =
          initRows alg df1 := by
        unfold initRows
        rw [List.map_map]
        rfl
      rw [h]

/- ### C5 -/

/-- C5 counterexample: the registry's fifth name is "WRatio", not
"Weighted Ratio" (`src/hplan.py` line 14): looking "Weighted Ratio" up
fails, and a run configured with it yields no output rows at all. -/
theorem registry_weighted_ratio_missing :
    lookupD (MATCH_ALGORITHMS fzEq) "Weighted Ratio" = none ∧
    fill_missing_values fzEq [TargetRow.mk "acme" none []] [("acme", "v")] 80
        "Weighted Ratio" true = none := by
  exact ⟨rfl, rfl⟩

/-- C5 amended: the registry maps exactly the five names Ratio, Partial
Ratio, Token Sort, Token Set, WRatio to scoring functions; any name
outside this set fails the lookup at line 40 (a `KeyError`) before any
target row is processed, and is never silently replaced by a default
scorer. -/
theorem registry_exact_names (fz : FuzzLib) (name : String) (df1 : List TargetRow)
    (df2 : List (String × String)) (threshold : Int) (pd : Bool) :
    ((lookupD (MATCH_ALGORITHMS fz) name).isSome = true ↔
      name ∈ ["Ratio", "Partial Ratio", "Token Sort", "Token Set", "WRatio"]) ∧
    (name ∉ ["Ratio", "Partial Ratio", "Token Sort", "Token Set", "WRatio"] →
      fill_missing_values fz df1 df2 threshold name pd = none) := by
  have hiff : (lookupD (MATCH_ALGORITHMS fz) name).isSome = true ↔
      name ∈ ["Ratio", "Partial Ratio", "Token Sort", "Token Set", "WRatio"] := by
    by_cases h1 : "Ratio" = name <;>
    by_cases h2 : "Partial Ratio" = name <;>
    by_cases h3 : "Token Sort" = name <;>
    by_cases h4 : "Token Set" = name <;>
    by_cases h5 : "WRatio" = name
    all_goals simp [MATCH_ALGORITHMS, lookupD, h1, h2, h3, h4, h5, eq_comm]
    all_goals exact ⟨fun h => h1 h.symm, fun h => h2 h.symm, fun h => h3 h.symm,
      fun h => h4 h.symm, fun h => h5 h.symm⟩
  refine ⟨hiff, fun hnot => ?_⟩
  have hnone : lookupD (MATCH_ALGORITHMS fz) name = none := by
    cases h : lookupD (MATCH_ALGORITHMS fz) name with
    | none => rfl
    | some s => exact absurd (hiff.mp (by rw [h]; rfl)) hnot
  unfold fill_missing_values
  rw [hnone]

/- ### C6 -/

/-- C6 counterexample: the fields of a target row other than the match key
are not carried into the output: two runs whose single target rows differ
only in the extra field `qty` produce identical outputs, because
`filled_df = df1[[match_col1]].copy()` (line 39) keeps only the match
column. -/
theorem fill_drops_other_fields :
    ([("qty", "1")] : List (String × String)) ≠ [("qty", "2")] ∧
    fill_missing_values fzEq [TargetRow.mk "acme" none [("qty", "1")]] [("acme", "v")]
        80 "Ratio" true =
      fill_missing_values fzEq [TargetRow.mk "acme" none [("qty", "2")]] [("acme", "v")]
        80 "Ratio" true := by
  exact ⟨by decide, by decide⟩

/-- C6 amended: only the match-key column of the target is carried into
the output; every other target field is dropped (the output rows consist
of the match key and the four annotation columns only), so the result is
independent of the target's other fields. -/
theorem fill_independent_of_other_fields (fz : FuzzLib) (df1 : List TargetRow)
    (df2 : List (String × String)) (threshold : Int) (alg : String) (pd : Bool) :
    fill_missing_values fz df1 df2 threshold alg pd =
      fill_missing_values fz (df1.map (fun t => TargetRow.mk t.key t.dataVal []))
        df2 threshold alg pd := by
  unfold fill_missing_values
  cases lookupD (MATCH_ALGORITHMS fz) alg with
  | none => rfl
  | some scorer =>
      have h : initRows alg (df1.map (fun t => TargetRow.mk t.key t.dataVal [])) =
          initRows alg df1 := by
        unfold initRows
        rw [List.map_map]
        rfl
      rw [h]

/- ### C9 -/

theorem kwStep_mem {acc : List HRowH} {r : HRowH} {kr : String × Int}
    (h : r ∈ kwStep acc kr) :
    ∃ r₀ ∈ acc, r.typ = r₀.typ ∧ r.name = r₀.name ∧
      (containsCI r₀.name kr.1 = true → r = { r₀ with hours := kr.2 }) := by
  simp only [kwStep, List.mem_map] at h
  rcases h with ⟨r₀, h₀, rfl⟩
  by_cases hc : containsCI r₀.name kr.1 = true
  · exact ⟨r₀, h₀, by simp [hc], by simp [hc], fun _ => by simp [hc]⟩
  · refine ⟨r₀, h₀, by simp [hc], by simp [hc], fun hcc => absurd hcc hc⟩

/-- C9: in the Hours Assignment Engine (modelled from the spec since its
source file is not under `src/`), keyword rules override type rules:
with type rule A→10 and keyword rule urgent→99, every output row of type
"A" whose name contains "urgent" case-insensitively ends with hours 99,
not 10; and in general, the last keyword rule in configured order decides
the hours of every row it matches, overwriting earlier keyword or type
assignments. -/
theorem assignHours_keyword_overrides_type (rows : List HRow)
    (trs kws : List (String × Int)) (k : String) (hv : Int) :
    (∀ r ∈ assignHours rows [("A", 10)] [("urgent", 99)],
      r.typ = "A" → containsCI r.name "urgent" = true → r.hours = 99) ∧
    (∀ r ∈ assignHours rows trs (kws ++ [(k, hv)]),
      containsCI r.name k = true → r.hours = hv) := by
  have hlast : ∀ (trs kws : List (String × Int)) (k : String) (hv : Int),
      ∀ r ∈ assignHours rows trs (kws ++ [(k, hv)]),
        containsCI r.name k = true → r.hours = hv := by
    intro trs kws k hv r hr hc
    simp only [assignHours, List.foldl_append, List.foldl_cons, List.foldl_nil] at hr
    rcases kwStep_mem hr with ⟨r₀, -, -, hname, hfill⟩
    rw [hfill (by rw [← hname]; exact hc)]
  refine ⟨?_, hlast trs kws k hv⟩
  intro r hr htyp hc
  exact hlast [("A", 10)] [] "urgent" 99 r hr hc

/- ### Witness applications of the claim theorems at concrete inputs -/

theorem fill_prevent_duplicates_invariants_check :
    (OutRow.mk "a" (some "1") 100 "a" "Ratio").matched ≠
      (OutRow.mk "a" (some "2") 0 "b" "Ratio").matched :=
  (fill_prevent_duplicates_invariants fzEq eqScorer
      [TargetRow.mk "a" none [], TargetRow.mk "a" none []]
      [("a", "1"), ("b", "2")] 0 "Ratio"
      [OutRow.mk "a" (some "1") 100 "a" "Ratio", OutRow.mk "a" (some "2") 0 "b" "Ratio"]
      rfl (by decide)).2.2.2 0 1 _ _ (by decide) rfl rfl rfl rfl

theorem fill_threshold_boundary_check :
    (OutRow.mk "a" (some "1") 100 "a" "Ratio").filledData.isSome = true ∧
    (OutRow.mk "a" (some "1") 100 "a" "Ratio").score = 100 :=
  (fill_threshold_boundary fzEq eqScorer [TargetRow.mk "a" none []] [("a", "1")] 100
      "Ratio" true [OutRow.mk "a" (some "1") 100 "a" "Ratio"] 0 (TargetRow.mk "a" none [])
      (OutRow.mk "a" (some "1") 100 "a" "Ratio")
      rfl (by decide) rfl rfl (by decide)).1 (by decide)

theorem fill_output_shape_check :
    ([OutRow.mk "a" (some "1") 100 "a" "Ratio"] : List OutRow).length =
      ([TargetRow.mk "a" none []] : List TargetRow).length :=
  (fill_output_shape fzEq eqScorer [TargetRow.mk "a" none []] [("a", "1")] 80 "Ratio" true
      [OutRow.mk "a" (some "1") 100 "a" "Ratio"] rfl (by decide)).1

theorem fill_empty_candidates_no_failure_check :
    ([OutRow.mk "a" none 0 "" "Ratio"] : List OutRow)[0]? = some (initRow "Ratio" "a") ∧
    ([OutRow.mk "a" none 0 "" "Ratio"] : List OutRow).length =
      ([TargetRow.mk "a" none []] : List TargetRow).length :=
  fill_empty_candidates_no_failure fzEq eqScorer [TargetRow.mk "a" none []] [] 80 "Ratio"
    true [OutRow.mk "a" none 0 "" "Ratio"] 0 (TargetRow.mk "a" none [])
    rfl (by decide) rfl (by decide)

theorem fill_zero_threshold_fills_scoreless_check :
    (OutRow.mk "x" (some "v") 0 "a" "Ratio").score = 0 ∧
    runSummary [OutRow.mk "x" (some "v") 0 "a" "Ratio"] <
      (([OutRow.mk "x" (some "v") 0 "a" "Ratio"] : List OutRow).filter
        (fun x => x.filledData.isSome)).length :=
  (fill_zero_threshold_fills_scoreless fzEq eqScorer [TargetRow.mk "x" none []]
      [("a", "v")] "Ratio" true [OutRow.mk "x" (some "v") 0 "a" "Ratio"] 0
      (TargetRow.mk "x" none []) (OutRow.mk "x" (some "v") 0 "a" "Ratio")
      rfl (fun a b => by simp only [eqScorer]; split <;> decide)
      (by decide) rfl rfl (by decide)).2.2.2 (by decide)

theorem registry_exact_names_check :
    ("Weighted Ratio" ∉ ["Ratio", "Partial Ratio", "Token Sort", "Token Set", "WRatio"]) ∧
    fill_missing_values fzEq [] [] 80 "Weighted Ratio" true = none :=
  ⟨by decide, (registry_exact_names fzEq "Weighted Ratio" [] [] 80 true).2 (by decide)⟩

theorem assignHours_keyword_overrides_type_check :
    containsCI "urgent task" "urgent" = true ∧
    (HRowH.mk "A" "urgent task" 99).hours = 99 :=
  ⟨by decide,
    (assignHours_keyword_overrides_type [HRow.mk "A" "urgent task"] [] [] "" 0).1
      (HRowH.mk "A" "urgent task" 99) (by decide) rfl (by decide)⟩

end HPlan
